import Mathlib

/-!
# Verification of the learning-card matching / rendering / progress engine

Shallow embedding of `src/frontend/src/components/LearningCard.tsx` (the
morphological-segment matching, error-highlighting, progress-tracking and
cursor-restoration engine) together with the data model from
`src/frontend/src/types/index.ts`.

Strings are modelled as `List Char` (`Str`).  JavaScript string methods used
by the component (`toLowerCase`, `indexOf`, `substring`, `includes`,
`startsWith`, `trim`, `replace(/\.+$/, "")`, `split(/(\s+)/)`, the chained
single-character `replace(...)` calls of `escapeHtml`) are given faithful
counterparts below.  `toLowerCase` is modelled character-wise over the ASCII
and Turkish uppercase letters occurring in the data.  JavaScript `-1`
sentinel results of `indexOf` are modelled as `Option Nat`.  Nullable string
fields (`string | null`) are `Option Str`; JavaScript truthiness of a
nullable string (`null` and `""` are both falsy) is `optStr x ≠ []`.

The HTML string built by `renderColoredText` is modelled as a list of styled
chunks (`Chunk`), one per string fragment the source appends to its `html`
accumulator; `renderHtml` rebuilds the exact HTML text from the chunks,
using the same literal span markup as the source.
-/

abbrev Str := List Char

def str (s : String) : Str := s.data

/-- Character-wise model of JavaScript `String.prototype.toLowerCase` for the
alphabet used by the application: ASCII `A`-`Z` plus the Turkish uppercase
letters. -/
def charLower (c : Char) : Char :=
  if 'A' ≤ c ∧ c ≤ 'Z' then Char.ofNat (c.toNat + 32)
  else if c = 'Ç' then 'ç'
  else if c = 'Ğ' then 'ğ'
  else if c = 'İ' then 'i'
  else if c = 'Ö' then 'ö'
  else if c = 'Ş' then 'ş'
  else if c = 'Ü' then 'ü'
  else c

def lower (s : Str) : Str := s.map charLower

/-- JavaScript `\s` for the characters this application can produce. -/
def isWsChar (c : Char) : Bool :=
  c = ' ' || c = '\t' || c = '\n' || c = '\r'

/-- `text.replace(/\.+$/, "")`: remove one trailing run of periods. -/
def stripTrailingDots (s : Str) : Str :=
  (s.reverse.dropWhile (fun c => c = '.')).reverse

/-- `String.prototype.trim`. -/
def jsTrim (s : Str) : Str :=
  ((s.dropWhile isWsChar).reverse.dropWhile isWsChar).reverse

/-- `haystack.indexOf(needle)`; `none` models the `-1` result. -/
def jsIndexOf : Str → Str → Option Nat
  | _, [] => some 0
  | [], _ :: _ => none
  | h :: hs, n :: ns =>
    if List.isPrefixOf (n :: ns) (h :: hs) then some 0
    else (jsIndexOf hs (n :: ns)).map (· + 1)

/-- `haystack.includes(needle)`. -/
def jsIncludes (h n : Str) : Bool := (jsIndexOf h n).isSome

/-- Truthiness payload of a nullable string: `null` becomes `[]`. -/
def optStr : Option Str → Str
  | none => []
  | some s => s

/-- `text.split(/(\s+)/)`: split on maximal whitespace runs, keeping the runs
as their own tokens; word tokens and whitespace tokens alternate, starting
and ending with a (possibly empty) word token. -/
def splitWs : Str → List Str
  | [] => [[]]
  | c :: rest =>
    let ts := splitWs rest
    if isWsChar c then
      match rest with
      | r :: _ =>
        if isWsChar r then
          match ts with
          | _ :: ws :: ts2 => [] :: (c :: ws) :: ts2
          | _ => [] :: [c] :: ts
        else [] :: [c] :: ts
      | [] => [] :: [c] :: ts
    else
      match ts with
      | t :: ts2 => (c :: t) :: ts2
      | [] => [[c]]

/-- `/^\s+$/.test(w)`: a non-empty all-whitespace token. -/
def isWsRun (w : Str) : Bool :=
  decide (w ≠ []) && w.all isWsChar

/-- `text.replace(/c/g, rep)` for a single-character pattern, as used by
`escapeHtml`. -/
def replaceChar (c : Char) (rep : Str) : Str → Str
  | [] => []
  | x :: xs => if x = c then rep ++ replaceChar c rep xs else x :: replaceChar c rep xs

/-- `escapeHtml` from `renderColoredText` (LearningCard.tsx:160-166): the five
chained global single-character replacements. -/
def escapeHtml (text : Str) : Str :=
  replaceChar (Char.ofNat 39) (str "&#039;")
    (replaceChar '"' (str "&quot;")
      (replaceChar '>' (str "&gt;")
        (replaceChar '<' (str "&lt;")
          (replaceChar '&' (str "&amp;") text))))

/-- `f` applied with the running JavaScript loop index. -/
def mapIdxFrom (f : Nat → α → β) : Nat → List α → List β
  | _, [] => []
  | i, a :: as => f i a :: mapIdxFrom f (i + 1) as

/-- The `for` loop of `markIncorrectWords` that finds which token contains the
cursor: the first index `i` with `cursorPosition ≤` cumulative length through
token `i`; `none` models `-1`. -/
def findCursorWord : List Str → Nat → Option Nat
  | [], _ => none
  | w :: ws, cp =>
    if cp ≤ w.length then some 0
    else (findCursorWord ws (cp - w.length)).map (· + 1)

/- ## Data model (types/index.ts) -/

inductive Polarity
  | positive
  | negative
deriving DecidableEq

structure TurkishVerb where
  verb_full : Str
  root : Str
  tense_affix : Str
  verb_tense : Str
  personal_pronoun : Option Str
  personal_affix : Option Str
  polarity : Polarity
  negative_affix : Option Str
deriving DecidableEq

structure TrainingExample where
  verb_rank : Nat
  verb_english : Str
  verb_russian : Str
  verb_infinitive : Str
  turkish_verb : TurkishVerb
  english_example_sentence : Str
  russian_example_sentence : Str
  turkish_example_sentence : Str
  turkish_example_sentence_with_blank : Str
deriving DecidableEq

inductive LearnDirection
  | englishToTurkish
  | russianToTurkish
  | turkishToEnglish
  | turkishToRussian
deriving DecidableEq

structure ProgressState where
  verbRoot : Bool
  negativeAffix : Bool
  tenseAffix : Bool
  personalAffix : Bool
  fullSentence : Bool
deriving DecidableEq

/-- `direction.endsWith('turkish')`. -/
def endsWithTurkish : LearnDirection → Bool
  | .englishToTurkish => true
  | .russianToTurkish => true
  | .turkishToEnglish => false
  | .turkishToRussian => false

/-- `getTargetSentence` (LearningCard.tsx:611-623). -/
def getTargetSentence (d : LearnDirection) (ex : TrainingExample) : Str :=
  match d with
  | .englishToTurkish => ex.turkish_example_sentence
  | .russianToTurkish => ex.turkish_example_sentence
  | .turkishToEnglish => ex.english_example_sentence
  | .turkishToRussian => ex.russian_example_sentence

/- ## Styled output model -/

/-- The four literal span colors used by `renderColoredText`. -/
inductive SegColor
  | blue
  | purple
  | orange
  | green
deriving DecidableEq

def colorCode : SegColor → Str
  | .blue => str "#1d4ed8"
  | .purple => str "#7e22ce"
  | .orange => str "#c2410c"
  | .green => str "#15803d"

/-- How one emitted fragment is styled.  `raw` is the non-Turkish-direction
path that returns `userInput` itself as the markup; `plain` is an
`escapeHtml(...)` fragment with no surrounding span; `errU` is the red
underline error span; `colored c b` is a `color:` span (`b` = bold). -/
inductive Style
  | raw
  | plain
  | errU
  | colored (c : SegColor) (bold : Bool)
deriving DecidableEq

structure Chunk where
  text : Str
  style : Style
deriving DecidableEq

/-- Plain-text content of a styled fragment list. -/
def textContent (cs : List Chunk) : Str :=
  cs.foldr (fun c acc => c.text ++ acc) []

/-- The literal text `<span style="` ... `">` around a style attribute. -/
def openTag (sty : Str) : Str :=
  '<' :: 's' :: 'p' :: 'a' :: 'n' :: ' ' :: 's' :: 't' :: 'y' :: 'l' :: 'e' :: '=' :: '"'
    :: (sty ++ ['"', '>'])

/-- The literal text `</span>`. -/
def closeTag : Str := ['<', '/', 's', 'p', 'a', 'n', '>']

/-- The literal `style` attribute text the source writes for each span kind. -/
def styleAttr : Style → Str
  | .errU => str "text-decoration: underline; text-decoration-color: red; text-decoration-thickness: 2px;"
  | .colored c true => str "color: " ++ colorCode c ++ str "; font-weight: bold;"
  | .colored c false => str "color: " ++ colorCode c ++ str ";"
  | .raw => []
  | .plain => []

/-- The HTML text one chunk contributes, exactly as the source concatenates
it into its `html` accumulator. -/
def chunkHtml (c : Chunk) : Str :=
  match c.style with
  | .raw => c.text
  | .plain => escapeHtml c.text
  | .errU => openTag (styleAttr .errU) ++ escapeHtml c.text ++ closeTag
  | .colored col b => openTag (styleAttr (.colored col b)) ++ escapeHtml c.text ++ closeTag

/-- The HTML string returned by `renderColoredText`. -/
def renderHtml (cs : List Chunk) : Str :=
  (cs.map chunkHtml).flatten

/- ## markIncorrectWords (LearningCard.tsx:184-250) -/

/-- The `isIncorrect` computation for one token of the loop body.
`tolerant` is the source's `isLastWord || isCursorWord`. -/
def codeTokenFlag (targetWords : List Str) (tolerant : Bool) (word : Str) : Bool :=
  if isWsRun word then false
  else
    let wordWithoutDots := stripTrailingDots word
    let wordLower := lower wordWithoutDots
    if wordWithoutDots = [] then false
    else if tolerant then
      !(targetWords.any (fun tw => List.isPrefixOf wordLower (lower tw)))
    else
      !(targetWords.any (fun tw => decide (lower tw = wordLower)))

/-- `markIncorrectWords(text, cursorPosition)`.  `revealFlag` is the captured
`progress.fullSentence`; `targetSentence` is the captured, already
dot-stripped target sentence. -/
def markIncorrectWords (revealFlag : Bool) (targetSentence : Str) (text : Str)
    (cursorPosition : Option Nat) : List Chunk :=
  if revealFlag then [⟨text, .plain⟩]
  else
    let words := splitWs text
    let targetWords := (splitWs targetSentence).filter (fun w => !(isWsRun w))
    let cursorWordIndex : Option Nat :=
      match cursorPosition with
      | none => none
      | some cp => findCursorWord words cp
    mapIdxFrom (fun i word =>
      let isLastWord := decide (i = words.length - 1)
      let isCursorWord := decide (cursorWordIndex = some i)
      if codeTokenFlag targetWords (isLastWord || isCursorWord) word then
        ⟨word, .errU⟩
      else ⟨word, .plain⟩) 0 words

/-- `renderTextWithErrors` (LearningCard.tsx:253-283); `verbChunks` is the
already-built `verbHtml`. -/
def renderTextWithErrors (revealFlag : Bool) (targetSentence : Str)
    (userInput : Str) (cursorPos : Nat) (beforeVerb : Str)
    (verbChunks : List Chunk) (afterVerb : Str) (verbStartPos : Nat) : List Chunk :=
  let verbLength := userInput.length - beforeVerb.length - afterVerb.length
  let verbEndPos := verbStartPos + verbLength
  let beforeCursorPos : Option Nat :=
    if cursorPos ≤ verbStartPos then some cursorPos else none
  let afterCursorPos : Option Nat :=
    if verbEndPos < cursorPos then some (cursorPos - verbEndPos) else none
  markIncorrectWords revealFlag targetSentence beforeVerb beforeCursorPos
    ++ verbChunks
    ++ markIncorrectWords revealFlag targetSentence afterVerb afterCursorPos

/- ## renderColoredText (LearningCard.tsx:158-412) -/

def turkishVowels : List Char := ['a', 'e', 'ı', 'i', 'o', 'ö', 'u', 'ü']

/-- One negative-affix / tense-affix block of the primary (full-surface-form)
path: search for the affix inside the remaining verb span; when found, emit
the buffer before it and the affix itself in the given color and advance the
search offset; when absent or not found, emit nothing and keep the offset. -/
def affixSearchStep (color : SegColor) (affix : Str) (actualVerbText : Str)
    (searchOffset : Nat) : List Chunk × Nat :=
  if affix = [] then ([], searchOffset)
  else
    let remainingVerb := actualVerbText.drop searchOffset
    match jsIndexOf (lower remainingVerb) (lower affix) with
    | none => ([], searchOffset)
    | some idx =>
      ((if 0 < idx then [⟨remainingVerb.take idx, .colored color false⟩] else [])
        ++ [⟨(remainingVerb.drop idx).take affix.length, .colored color false⟩],
       searchOffset + idx + affix.length)

structure VerbPart where
  text : Str
  color : SegColor
  bold : Bool

/-- The root block of the primary path (LearningCard.tsx:293-307): emit the
first `rootLength` characters of the matched span in bold blue, where a
vowel-dropping root (root ends in a vowel and the tense affix starts with
one) shortens the root by one character. -/
def rootStepA (tv : TurkishVerb) (actualVerbText : Str) : List Chunk × Nat :=
  if tv.root ≠ [] then
    let root := tv.root
    let rootEndsWithVowel := turkishVowels.contains (charLower (root.getLastD ' '))
    let tenseAffix := tv.tense_affix
    let tenseStartsWithVowel :=
      decide (0 < tenseAffix.length) && turkishVowels.contains (charLower (tenseAffix.headD ' '))
    let useReducedRoot := rootEndsWithVowel && tenseStartsWithVowel
    let rootLength := if useReducedRoot then root.length - 1 else root.length
    ([⟨actualVerbText.take rootLength, .colored .blue true⟩], rootLength)
  else ([], 0)

/-- The `verbHtml` accumulator of the primary path (LearningCard.tsx:290-343):
root block, negative-affix search, tense-affix search, then the whole
remainder in green when a personal affix is present. -/
def verbChunksA (tv : TurkishVerb) (actualVerbText : Str) : List Chunk :=
  let rootStep := rootStepA tv actualVerbText
  let negStep := affixSearchStep .purple (optStr tv.negative_affix) actualVerbText rootStep.2
  let tenseStep := affixSearchStep .orange tv.tense_affix actualVerbText negStep.2
  let personalChunks : List Chunk :=
    if optStr tv.personal_affix ≠ [] then
      [⟨actualVerbText.drop tenseStep.2, .colored .green false⟩]
    else []
  rootStep.1 ++ negStep.1 ++ tenseStep.1 ++ personalChunks

/-- The sequential-matching loop of the fallback path (LearningCard.tsx:381-398):
match each part at the current index, stopping at the first mismatch; returns
the emitted chunks and the final `verbEndIndex`. -/
def matchVerbParts (userInput : Str) : List VerbPart → Nat → List Chunk × Nat
  | [], currentIndex => ([], currentIndex)
  | p :: ps, currentIndex =>
    if List.isPrefixOf (lower p.text) (lower (userInput.drop currentIndex)) then
      let actualText := (userInput.drop currentIndex).take p.text.length
      let rest := matchVerbParts userInput ps (currentIndex + p.text.length)
      (⟨actualText, .colored p.color p.bold⟩ :: rest.1, rest.2)
    else ([], currentIndex)

/-- `renderColoredText` as a list of styled fragments.  `revealFlag` is
`progress.fullSentence`; `cursorPos` is the value `getCursorPosition()`
returns for the current selection. -/
def renderColoredText (d : LearnDirection) (ex : TrainingExample)
    (userInput : Str) (revealFlag : Bool) (cursorPos : Nat) : List Chunk :=
  if !(endsWithTurkish d) then [⟨userInput, .raw⟩]
  else if userInput = [] then []
  else
    let targetSentence := stripTrailingDots (getTargetSentence d ex)
    let tv := ex.turkish_verb
    let verbFull := tv.verb_full
    let inputLower := lower userInput
    match jsIndexOf inputLower (lower verbFull) with
    | some verbIndex =>
      let actualVerbText := (userInput.take (verbIndex + verbFull.length)).drop verbIndex
      renderTextWithErrors revealFlag targetSentence userInput cursorPos
        (userInput.take verbIndex) (verbChunksA tv actualVerbText)
        (userInput.drop (verbIndex + verbFull.length)) verbIndex
    | none =>
      let verbParts : List VerbPart :=
        (if tv.root ≠ [] then [⟨tv.root, .blue, true⟩] else [])
          ++ (if optStr tv.negative_affix ≠ [] then [⟨optStr tv.negative_affix, .purple, false⟩] else [])
          ++ (if tv.tense_affix ≠ [] then [⟨tv.tense_affix, .orange, false⟩] else [])
          ++ (if optStr tv.personal_affix ≠ [] then [⟨optStr tv.personal_affix, .green, false⟩] else [])
      match verbParts with
      | [] => markIncorrectWords revealFlag targetSentence userInput none
      | rootPart :: _ =>
        match jsIndexOf inputLower (lower rootPart.text) with
        | none => markIncorrectWords revealFlag targetSentence userInput none
        | some rootIndex =>
          let matched := matchVerbParts userInput verbParts rootIndex
          renderTextWithErrors revealFlag targetSentence userInput cursorPos
            (userInput.take rootIndex) matched.1
            (userInput.drop matched.2) rootIndex

/- ## Progress state machine -/

/-- Result of one typing event: the new progress plus the `onProgress`
invocations the handler performs (`(state, wasManualInput)` pairs). -/
structure CheckResult where
  progress : ProgressState
  emissions : List (ProgressState × Bool)
deriving DecidableEq

/-- `checkProgressRealTime` (LearningCard.tsx:489-548). -/
def checkProgressRealTime (d : LearnDirection) (ex : TrainingExample)
    (progress : ProgressState) (input : Str) : CheckResult :=
  let inputTrimmed := stripTrailingDots (jsTrim input)
  let inputLower := lower inputTrimmed
  let tv := ex.turkish_verb
  let vr :=
    if endsWithTurkish d then jsIncludes inputLower (lower tv.root)
    else progress.verbRoot
  let na :=
    if endsWithTurkish d && decide (tv.polarity = .negative) && decide (optStr tv.negative_affix ≠ []) then
      jsIncludes inputLower (lower (optStr tv.negative_affix))
    else progress.negativeAffix
  let ta :=
    if endsWithTurkish d && decide (tv.tense_affix ≠ []) then
      jsIncludes inputLower (lower tv.tense_affix)
    else progress.tenseAffix
  let pa :=
    if endsWithTurkish d && decide (optStr tv.personal_affix ≠ []) then
      jsIncludes inputLower (lower (optStr tv.personal_affix))
    else progress.personalAffix
  let targetSentence := stripTrailingDots (lower (getTargetSentence d ex))
  let isFullSentenceMatch := decide (inputLower = targetSentence)
  let wasFullSentenceCompleted := !progress.fullSentence && isFullSentenceMatch
  let newProgress : ProgressState := ⟨vr, na, ta, pa, isFullSentenceMatch⟩
  let hasChanges :=
    (vr != progress.verbRoot) || (na != progress.negativeAffix)
      || (ta != progress.tenseAffix) || (pa != progress.personalAffix)
      || (isFullSentenceMatch != progress.fullSentence)
  { progress := newProgress
    emissions := if hasChanges then [(newProgress, wasFullSentenceCompleted)] else [] }

/-- `buildTextFromProgress` (LearningCard.tsx:551-574). -/
def buildTextFromProgress (d : LearnDirection) (ex : TrainingExample)
    (p : ProgressState) : Str :=
  let tv := ex.turkish_verb
  if endsWithTurkish d then
    if p.fullSentence then getTargetSentence d ex
    else
      (if p.verbRoot then tv.root else [])
        ++ (if p.negativeAffix && decide (optStr tv.negative_affix ≠ []) then optStr tv.negative_affix else [])
        ++ (if p.tenseAffix && decide (tv.tense_affix ≠ []) then tv.tense_affix else [])
        ++ (if p.personalAffix && decide (optStr tv.personal_affix ≠ []) then optStr tv.personal_affix else [])
  else if p.fullSentence then getTargetSentence d ex
  else []

/-- The `inputState` React state (`'neutral' | 'correct' | 'error'`). -/
inductive InputFeedback
  | neutral
  | correct
  | error
deriving DecidableEq

/-- The component state touched by the checkbox handlers and the
example-change effect. -/
structure CardState where
  progress : ProgressState
  userInput : Str
  inputState : InputFeedback
deriving DecidableEq

def initialCardState : CardState :=
  ⟨⟨false, false, false, false, false⟩, [], .neutral⟩

/-- One of the five progress checkboxes. -/
inductive Click
  | vr
  | neg
  | ta
  | pa
  | fs
deriving DecidableEq

/-- The five `onToggle` handlers (LearningCard.tsx:908-992).  The second
component lists the `onProgress` calls the handler makes: none of these
handlers invokes `onProgress`, so it is always `[]`. -/
def applyClick (d : LearnDirection) (ex : TrainingExample) (c : Click)
    (s : CardState) : CardState × List (ProgressState × Bool) :=
  let setComponent (newProgress : ProgressState) : CardState :=
    { s with progress := newProgress
             userInput :=
               if endsWithTurkish d then buildTextFromProgress d ex newProgress
               else s.userInput }
  match c with
  | .vr => (setComponent { s.progress with verbRoot := !s.progress.verbRoot }, [])
  | .neg => (setComponent { s.progress with negativeAffix := !s.progress.negativeAffix }, [])
  | .ta => (setComponent { s.progress with tenseAffix := !s.progress.tenseAffix }, [])
  | .pa => (setComponent { s.progress with personalAffix := !s.progress.personalAffix }, [])
  | .fs =>
    if s.progress.fullSentence then
      ({ s with progress := ⟨false, false, false, false, false⟩, userInput := [] }, [])
    else
      let newProgress : ProgressState :=
        ⟨true,
         (if ex.turkish_verb.polarity = .negative then true else s.progress.negativeAffix),
         true, true, true⟩
      ({ s with progress := newProgress
                userInput := buildTextFromProgress d ex newProgress }, [])

/-- The negative-affix checkbox is only rendered when the polarity is
negative and the affix is truthy (LearningCard.tsx:921). -/
def negCheckboxRendered (ex : TrainingExample) : Bool :=
  decide (ex.turkish_verb.polarity = .negative) && decide (optStr ex.turkish_verb.negative_affix ≠ [])

/-- Clicking every rendered checkbox once, top to bottom. -/
def clickList (ex : TrainingExample) : List Click :=
  [.vr] ++ (if negCheckboxRendered ex then [.neg] else []) ++ [.ta, .pa, .fs]

def applyClicks (d : LearnDirection) (ex : TrainingExample) (cs : List Click)
    (s : CardState) : CardState :=
  cs.foldl (fun st c => (applyClick d ex c st).1) s

/-- Effects that run when `example` changes (LearningCard.tsx:115-121 and
136-141): `inputState` is set back to neutral; progress is deliberately kept;
when the reveal flag is set, `userInput` is rebuilt from the new example. -/
def onExampleChange (d : LearnDirection) (newEx : TrainingExample)
    (s : CardState) : CardState :=
  { progress := s.progress
    userInput :=
      if s.progress.fullSentence then buildTextFromProgress d newEx s.progress
      else s.userInput
    inputState := .neutral }

/- ## Cursor restoration (LearningCard.tsx:446-466) -/

/-- `traverseNodes` over the rendered tree, abstracted to the sequence of
text-node lengths: find the first node at which the cumulative length reaches
`cursorOffset` and return `(node index, local offset)`; `none` means
`foundPosition` stays false and the selection is not restored. -/
def traverseNodes : List Nat → Nat → Option (Nat × Nat)
  | [], _ => none
  | n :: rest, cursorOffset =>
    if cursorOffset ≤ n then some (0, cursorOffset)
    else (traverseNodes rest (cursorOffset - n)).map (fun p => (p.1 + 1, p.2))

/-- The global caret offset the restored position corresponds to. -/
def restoredOffset (ns : List Nat) (cursorOffset : Nat) : Option Nat :=
  (traverseNodes ns cursorOffset).map (fun p => ((ns.take p.1).sum + p.2))

/- ## HTML safety predicate -/

/-- Every `<` in the string begins one of the renderer's own literal
`<span ...>` / `</span>` tags; a raw `<` from user input (as in `<script>`)
violates this. -/
def safeHtmlB : Str → Bool
  | [] => true
  | c :: rest =>
    (if c = '<' then
       (List.isPrefixOf (str "span") rest || List.isPrefixOf (str "/span") rest)
     else true)
      && safeHtmlB rest

/- ## Word Error Classifier, specification side (claim C4) -/

/-- Cumulative length of the first `i` tokens. -/
def cumLen (words : List Str) (i : Nat) : Nat :=
  ((words.take i).map List.length).sum

/-- Arithmetic reading of "the token's character range contains the cursor":
the cursor lies at or before the end of token `i` and strictly after its
start (the very first token also owns cursor position 0). -/
def specContainsCursor (words : List Str) (cp : Option Nat) (i : Nat) : Bool :=
  match cp with
  | none => false
  | some c =>
    decide (c ≤ cumLen words (i + 1)) && (decide (i = 0) || decide (cumLen words i < c))

/-- The classifier rule exactly as the claim states it: whitespace tokens are
never flagged; a cursor/last token is flagged iff its dot-stripped text is a
prefix of no target word; any other token is flagged iff its dot-stripped
text equals no target word (case-insensitively). -/
def claimTokenFlag (targetWords : List Str) (tolerant : Bool) (word : Str) : Bool :=
  if isWsRun word then false
  else
    let wordLower := lower (stripTrailingDots word)
    if tolerant then
      !(targetWords.any (fun tw => List.isPrefixOf wordLower (lower tw)))
    else
      !(targetWords.any (fun tw => decide (lower tw = wordLower)))

/-- The claim's rule amended by the exemption the code actually implements:
a token whose text after stripping trailing periods is empty (an all-period
or empty token) is never flagged. -/
def amendedTokenFlag (targetWords : List Str) (tolerant : Bool) (word : Str) : Bool :=
  if stripTrailingDots word = [] then false
  else claimTokenFlag targetWords tolerant word

def targetWordsOf (targetSentence : Str) : List Str :=
  (splitWs targetSentence).filter (fun w => !(isWsRun w))

/-- The per-token incorrect flags `markIncorrectWords` produces. -/
def codeFlags (targetSentence text : Str) (cp : Option Nat) : List Bool :=
  (markIncorrectWords false targetSentence text cp).map (fun c => decide (c.style = .errU))

/-- The per-token flags demanded by the claim as stated. -/
def claimFlags (targetSentence text : Str) (cp : Option Nat) : List Bool :=
  let words := splitWs text
  mapIdxFrom (fun i w =>
    claimTokenFlag (targetWordsOf targetSentence)
      (decide (i = words.length - 1) || specContainsCursor words cp i) w) 0 words

/-- The per-token flags demanded by the amended claim. -/
def amendedFlags (targetSentence text : Str) (cp : Option Nat) : List Bool :=
  let words := splitWs text
  mapIdxFrom (fun i w =>
    amendedTokenFlag (targetWordsOf targetSentence)
      (decide (i = words.length - 1) || specContainsCursor words cp i) w) 0 words

/- ## Concrete fixtures -/

/-- The decomposition of the spec's running example: root "gel", tense "di",
personal "m", positive polarity, target "Ben parka geldim." -/
def exGel : TrainingExample :=
  { verb_rank := 1
    verb_english := str "to come"
    verb_russian := str "приходить"
    verb_infinitive := str "gelmek"
    turkish_verb :=
      { verb_full := str "geldim"
        root := str "gel"
        tense_affix := str "di"
        verb_tense := str "geçmiş_zaman"
        personal_pronoun := some (str "ben")
        personal_affix := some (str "m")
        polarity := .positive
        negative_affix := none }
    english_example_sentence := str "I came to the park."
    russian_example_sentence := str "Я пришёл в парк."
    turkish_example_sentence := str "Ben parka geldim."
    turkish_example_sentence_with_blank := str "Ben parka ______." }

/-- A third-person form whose decomposition carries neither a tense affix nor
a personal affix: the matched span "geldi" is only partially consumed. -/
def exGeldi : TrainingExample :=
  { verb_rank := 1
    verb_english := str "to come"
    verb_russian := str "приходить"
    verb_infinitive := str "gelmek"
    turkish_verb :=
      { verb_full := str "geldi"
        root := str "gel"
        tense_affix := []
        verb_tense := str "geçmiş_zaman"
        personal_pronoun := some (str "o")
        personal_affix := none
        polarity := .positive
        negative_affix := none }
    english_example_sentence := str "He came."
    russian_example_sentence := str "Он пришёл."
    turkish_example_sentence := str "Geldi."
    turkish_example_sentence_with_blank := str "______." }


/- ## General lemmas -/

theorem textContent_append (a b : List Chunk) :
    textContent (a ++ b) = textContent a ++ textContent b := by
  induction a with
  | nil => rfl
  | cons c cs ih =>
    simp only [List.cons_append, textContent, List.foldr_cons] at ih ⊢
    rw [ih, List.append_assoc]

theorem buildTextFromProgress_full (d : LearnDirection) (ex : TrainingExample)
    (p : ProgressState) (h : p.fullSentence = true) :
    buildTextFromProgress d ex p = getTargetSentence d ex := by
  cases d <;> simp [buildTextFromProgress, endsWithTurkish, h]

/- Helper for the emission bookkeeping of `checkProgressRealTime`: the
`hasChanges` disjunction is exactly inequality of the old and new states. -/
theorem hasChanges_ite : ∀ (w v1 v2 v3 v4 v5 p1 p2 p3 p4 p5 : Bool),
    (if (v1 != p1) || (v2 != p2) || (v3 != p3) || (v4 != p4) || (v5 != p5) then
       [((⟨v1, v2, v3, v4, v5⟩ : ProgressState), w)] else [])
      = if (⟨v1, v2, v3, v4, v5⟩ : ProgressState) = ⟨p1, p2, p3, p4, p5⟩ then []
        else [((⟨v1, v2, v3, v4, v5⟩ : ProgressState), w)] := by
  decide

/- ## Claim C7 -/

/-- Claim C7 (confirmed): for the decomposition root="gel", tenseAffix="di",
personalAffix="m", negativeAffix=null with target "Ben parka geldim.",
typing "Ben parka geldim" sets verbRoot, tenseAffix, personalAffix and
fullSentence; "Ben parka geldim." also completes the sentence;
"Ben parka geldim!!" does not; "Ben parka gel" sets only verbRoot. -/
theorem concreteProgressVectors :
    (let p := (checkProgressRealTime .englishToTurkish exGel
                ⟨false, false, false, false, false⟩ (str "Ben parka geldim")).progress
     p.verbRoot = true ∧ p.tenseAffix = true ∧ p.personalAffix = true ∧ p.fullSentence = true) ∧
    (checkProgressRealTime .englishToTurkish exGel
      ⟨false, false, false, false, false⟩ (str "Ben parka geldim.")).progress.fullSentence = true ∧
    (checkProgressRealTime .englishToTurkish exGel
      ⟨false, false, false, false, false⟩ (str "Ben parka geldim!!")).progress.fullSentence = false ∧
    (checkProgressRealTime .englishToTurkish exGel
      ⟨false, false, false, false, false⟩ (str "Ben parka gel")).progress
      = ⟨true, false, false, false, false⟩ := by
  decide

/- ## Claim C2 -/

/-- Claim C2 counterexample: after typing " ben parka geldim" (leading
space), the code sets `fullSentence` — it additionally trims surrounding
whitespace — although under the claim's normalization (lowercase plus
trailing-period stripping only) the text does not equal the target. -/
theorem progressInvariantCounterexample :
    (checkProgressRealTime .englishToTurkish exGel ⟨false, false, false, false, false⟩
      (str " ben parka geldim")).progress.fullSentence = true ∧
    stripTrailingDots (lower (str " ben parka geldim"))
      ≠ stripTrailingDots (lower (getTargetSentence .englishToTurkish exGel)) := by
  decide

/-- Claim C2 amended: after every typing event, `fullSentence` equals the
normalized comparison the code performs — the input is additionally
whitespace-trimmed before lowercasing and trailing-period stripping; the
four component-checkbox toggles never touch `fullSentence` (so the
equivalence is not re-established by manual toggles). -/
theorem progressInvariantAmended (d : LearnDirection) (ex : TrainingExample)
    (p : ProgressState) (input : Str) (s : CardState) :
    ((checkProgressRealTime d ex p input).progress.fullSentence =
      decide (lower (stripTrailingDots (jsTrim input))
        = stripTrailingDots (lower (getTargetSentence d ex)))) ∧
    (applyClick d ex .vr s).1.progress.fullSentence = s.progress.fullSentence ∧
    (applyClick d ex .neg s).1.progress.fullSentence = s.progress.fullSentence ∧
    (applyClick d ex .ta s).1.progress.fullSentence = s.progress.fullSentence ∧
    (applyClick d ex .pa s).1.progress.fullSentence = s.progress.fullSentence := by
  exact ⟨rfl, rfl, rfl, rfl, rfl⟩

/- ## Claim C3 -/

/-- Claim C3 counterexample: a card whose progress is fully set keeps that
progress when the underlying example changes — the effect deliberately does
not reset it to all-false. -/
theorem exampleChangeCounterexample :
    (onExampleChange .englishToTurkish exGeldi
      ⟨⟨true, false, true, true, true⟩, str "Ben parka geldim.", .neutral⟩).progress
      ≠ ⟨false, false, false, false, false⟩ := by
  decide

/-- Claim C3 amended: when the underlying example changes, the progress
state is preserved (the code keeps the reveal state on purpose); only the
`inputState` feedback is reset to neutral. -/
theorem exampleChangeAmended (d : LearnDirection) (newEx : TrainingExample)
    (s : CardState) :
    (onExampleChange d newEx s).progress = s.progress ∧
    (onExampleChange d newEx s).inputState = .neutral := by
  exact ⟨rfl, rfl⟩

/- ## Claim C5 -/

/-- Claim C5 counterexample: with a positive-polarity decomposition
(`exGel`) and all flags false, toggling Reveal Answer on leaves
`negativeAffix` false instead of forcing it to true. -/
theorem revealToggleCounterexample :
    (applyClick .englishToTurkish exGel .fs initialCardState).1.progress.negativeAffix ≠ true := by
  decide

/-- Claim C5 amended: toggling Reveal Answer on replaces the field with
`targetSentence`, forces `verbRoot`, `tenseAffix`, `personalAffix` and
`fullSentence` to true, and forces `negativeAffix` to true only when the
polarity is negative (otherwise it keeps its previous value); toggling it
off sets all five flags to false and empties the field. -/
theorem revealToggleAmended (d : LearnDirection) (ex : TrainingExample) (s : CardState) :
    applyClick d ex .fs s =
      (if s.progress.fullSentence then
        ({ s with progress := ⟨false, false, false, false, false⟩, userInput := [] },
         ([] : List (ProgressState × Bool)))
       else
        ({ s with
            progress := ⟨true,
              (if ex.turkish_verb.polarity = .negative then true else s.progress.negativeAffix),
              true, true, true⟩,
            userInput := getTargetSentence d ex },
         ([] : List (ProgressState × Bool)))) := by
  cases hfs : s.progress.fullSentence
  · simp only [applyClick, hfs, Bool.false_eq_true, if_false]
    rw [buildTextFromProgress_full d ex _ rfl]
  · simp [applyClick, hfs]

/- ## Claim C8 -/

/-- Claim C8 counterexample: toggling the Verb Root checkbox changes the
progress state but performs no `onProgress` call at all — a state change
with no emission. -/
theorem emissionContractCounterexample :
    (applyClick .englishToTurkish exGel .vr initialCardState).1.progress
      ≠ initialCardState.progress ∧
    (applyClick .englishToTurkish exGel .vr initialCardState).2 = [] := by
  decide

/-- Claim C8 amended: `onProgress` is called exactly on typing-driven state
changes, with the completion flag true exactly when `fullSentence` goes
from false to true; the five checkbox handlers never call `onProgress`. -/
theorem emissionContractAmended (d : LearnDirection) (ex : TrainingExample)
    (p : ProgressState) (input : Str) :
    ((checkProgressRealTime d ex p input).emissions =
      if (checkProgressRealTime d ex p input).progress = p then []
      else [((checkProgressRealTime d ex p input).progress,
             !p.fullSentence && (checkProgressRealTime d ex p input).progress.fullSentence)]) ∧
    ∀ (c : Click) (s : CardState), (applyClick d ex c s).2 = [] := by
  constructor
  · rcases p with ⟨p1, p2, p3, p4, p5⟩
    simp only [checkProgressRealTime]
    exact hasChanges_ite _ _ _ _ _ _ _ _ _ _ _
  · intro c s
    cases c
    case vr => rfl
    case neg => rfl
    case ta => rfl
    case pa => rfl
    case fs => cases hfs : s.progress.fullSentence <;> simp [applyClick, hfs]

/- ## Claim C9 -/

/-- Claim C9 counterexample: with a single text node of length 3 and a
captured offset of 5, the traversal finds no position — the caret is left
unrestored rather than clamped to the end (offset 3). -/
theorem cursorRestorationCounterexample :
    restoredOffset [3] 5 ≠ some 3 := by
  decide

/-- Claim C9 amended: whenever the node list is non-empty and the captured
offset is at most the total text length, the traversal places the caret at
the exact cumulative offset (so a no-op re-render restores every offset
0..len); when the offset exceeds the total length, the traversal finds no
position and the caret is not restored (no clamping). -/
theorem cursorRestorationAmended (ns : List Nat) (cursorOffset : Nat) :
    (ns ≠ [] → cursorOffset ≤ ns.sum → restoredOffset ns cursorOffset = some cursorOffset) ∧
    (ns.sum < cursorOffset → traverseNodes ns cursorOffset = none) := by
  induction ns generalizing cursorOffset with
  | nil => exact ⟨fun h => absurd rfl h, fun _ => rfl⟩
  | cons n rest ih =>
    constructor
    · intro _ hle
      by_cases h : cursorOffset ≤ n
      · simp [restoredOffset, traverseNodes, h]
      · push_neg at h
        have hrest : rest ≠ [] := by
          rcases rest with _ | ⟨m, ms⟩
          · simp only [List.sum_cons, List.sum_nil] at hle
            omega
          · simp
        have h2 : cursorOffset - n ≤ rest.sum := by
          simp only [List.sum_cons] at hle
          omega
        have hr := (ih (cursorOffset - n)).1 hrest h2
        rcases htr : traverseNodes rest (cursorOffset - n) with _ | ⟨i, l⟩
        · rw [restoredOffset, htr] at hr
          simp at hr
        · rw [restoredOffset, htr] at hr
          simp only [Option.map_some'] at hr
          have hsum : (rest.take i).sum + l = cursorOffset - n := Option.some_inj.mp hr
          have hn' : ¬ cursorOffset ≤ n := by omega
          simp [restoredOffset, traverseNodes, hn', htr, List.take_succ_cons, List.sum_cons]
          omega
    · intro hgt
      have hn : ¬ cursorOffset ≤ n := by
        have : n ≤ (n :: rest).sum := by simp [List.sum_cons]
        omega
      have h2 : rest.sum < cursorOffset - n := by
        simp only [List.sum_cons] at hgt
        omega
      simp [traverseNodes, hn, (ih (cursorOffset - n)).2 h2]

/-- Witness for `cursorRestorationAmended` at concrete inputs. -/
theorem cursorRestorationWitness :
    restoredOffset [2, 3] 4 = some 4 ∧ traverseNodes [2, 3] 6 = none :=
  ⟨(cursorRestorationAmended [2, 3] 4).1 (by decide) (by decide),
   (cursorRestorationAmended [2, 3] 6).2 (by decide)⟩

/- ## Content preservation lemmas (claim C1) -/

theorem splitWs_ws_shape (c : Char) (rest : Str) (h : isWsChar c = true) :
    ∃ u v, splitWs (c :: rest) = [] :: u :: v := by
  rw [splitWs.eq_def]
  simp only [h, if_true]
  rcases rest with _ | ⟨r, rs⟩
  · exact ⟨[c], _, rfl⟩
  · by_cases hr : isWsChar r
    · simp only [hr, if_true]
      rcases hts : splitWs (r :: rs) with _ | ⟨t0, ts⟩
    <;> try exact ⟨[c], _, rfl⟩
      rcases ts with _ | ⟨w1, ts2⟩
      · exact ⟨[c], _, rfl⟩
      · exact ⟨c :: w1, ts2, rfl⟩
    · simp only [hr, if_false]
      exact ⟨[c], _, rfl⟩

theorem splitWs_flatten (s : Str) : (splitWs s).flatten = s := by
  induction s with
  | nil => rfl
  | cons c rest ih =>
    rw [splitWs.eq_def]
    dsimp only
    by_cases h : isWsChar c
    · simp only [h, if_true]
      rcases rest with _ | ⟨r, rs⟩
      · simp [splitWs]
      · by_cases hr : isWsChar r
        · simp only [hr, if_true]
          obtain ⟨u, v, huv⟩ := splitWs_ws_shape r rs hr
          rw [huv] at ih ⊢
          simp only [List.flatten_cons, List.nil_append] at ih ⊢
          rw [← ih]
          exact List.cons_append _ _ _
        · simp only [hr, if_false]
          simpa using ih
    · rw [if_neg h]
      rcases hts : splitWs rest with _ | ⟨t, ts2⟩
      · rw [hts] at ih
        simp only [List.flatten_nil] at ih
        simp [← ih]
      · rw [hts] at ih
        simp only [List.flatten_cons] at ih ⊢
        rw [List.cons_append, ih]

theorem textContent_mapIdxFrom (f : Nat → Str → Chunk)
    (h : ∀ i w, (f i w).text = w) :
    ∀ (n : Nat) (ws : List Str), textContent (mapIdxFrom f n ws) = ws.flatten := by
  intro n ws
  induction ws generalizing n with
  | nil => rfl
  | cons w ws ih =>
    simp only [mapIdxFrom, List.flatten_cons, textContent, List.foldr_cons] at ih ⊢
    rw [h n w, ih (n + 1)]

theorem markIncorrectWords_textContent (r : Bool) (t text : Str) (cp : Option Nat) :
    textContent (markIncorrectWords r t text cp) = text := by
  rw [markIncorrectWords]
  by_cases hr : r
  · simp [hr, textContent]
  · simp only [hr, Bool.false_eq_true, if_false]
    rw [textContent_mapIdxFrom _ (fun i w => by split <;> rfl)]
    exact splitWs_flatten text

theorem renderTextWithErrors_textContent (r : Bool) (t ui : Str) (cp : Nat)
    (before : Str) (vcs : List Chunk) (after : Str) (vsp : Nat) :
    textContent (renderTextWithErrors r t ui cp before vcs after vsp)
      = before ++ (textContent vcs ++ after) := by
  rw [renderTextWithErrors]
  rw [textContent_append, textContent_append,
    markIncorrectWords_textContent, markIncorrectWords_textContent, List.append_assoc]

theorem take_glue (l : Str) (a b : Nat) (hab : a ≤ b) :
    l.take a ++ (l.drop a).take (b - a) = l.take b := by
  rw [← List.take_add]
  congr 1
  omega

theorem take_seg_drop (l : Str) (a e : Nat) (hae : a ≤ e) :
    l.take a ++ ((l.drop a).take (e - a) ++ l.drop e) = l := by
  have hd : l.drop e = (l.drop a).drop (e - a) := by
    rw [List.drop_drop]
    congr 1
    omega
  rw [hd, List.take_append_drop, List.take_append_drop]

theorem take_chunk_eq (l : Str) (a L : Nat) :
    (l.take (a + L)).drop a = (l.drop a).take L := by
  rw [List.drop_take]
  congr 1
  omega

theorem affixSearchStep_spec (color : SegColor) (affix avt : Str) (so : Nat) :
    so ≤ (affixSearchStep color affix avt so).2 ∧
    textContent (affixSearchStep color affix avt so).1
      = (avt.drop so).take ((affixSearchStep color affix avt so).2 - so) := by
  rw [affixSearchStep]
  by_cases ha : affix = []
  · simp [ha, textContent]
  · simp only [ha, if_false]
    rcases hidx : jsIndexOf (lower (avt.drop so)) (lower affix) with _ | idx
    · simp [textContent]
    · dsimp only
      refine ⟨by omega, ?_⟩
      by_cases hi : 0 < idx
      · rw [if_pos hi, textContent_append]
        simp only [textContent, List.foldr_cons, List.foldr_nil, List.append_nil]
        rw [← List.take_add]
        congr 1
        omega
      · rw [if_neg hi]
        simp only [List.nil_append, textContent, List.foldr_cons, List.foldr_nil,
          List.append_nil]
        have hz : idx = 0 := by omega
        subst hz
        simp only [List.drop_zero]
        congr 1
        omega

theorem matchVerbParts_spec (input : Str) (ps : List VerbPart) : ∀ (ci : Nat),
    ci ≤ (matchVerbParts input ps ci).2 ∧
    textContent (matchVerbParts input ps ci).1
      = (input.drop ci).take ((matchVerbParts input ps ci).2 - ci) := by
  induction ps with
  | nil => intro ci; simp [matchVerbParts, textContent]
  | cons p ps ih =>
    intro ci
    rw [matchVerbParts]
    by_cases h : List.isPrefixOf (lower p.text) (lower (input.drop ci))
    · rw [if_pos h]
      obtain ⟨ih1, ih2⟩ := ih (ci + p.text.length)
      dsimp only
      refine ⟨by omega, ?_⟩
      simp only [textContent, List.foldr_cons] at ih2 ⊢
      rw [ih2]
      have hdd : input.drop (ci + p.text.length) = (input.drop ci).drop p.text.length := by
        rw [List.drop_drop]
      rw [hdd, ← List.take_add]
      congr 1
      omega
    · simp [h, textContent]

theorem rootStepA_textContent (tv : TurkishVerb) (avt : Str) :
    textContent (rootStepA tv avt).1 = avt.take (rootStepA tv avt).2 := by
  rw [rootStepA]
  by_cases h : tv.root ≠ [] <;> simp [h, textContent]

theorem glue3 (avt : Str) (s0 s1 s2 : Nat) (h01 : s0 ≤ s1) (h12 : s1 ≤ s2) :
    avt.take s0 ++ (avt.drop s0).take (s1 - s0)
      ++ (avt.drop s1).take (s2 - s1) ++ avt.drop s2 = avt := by
  rw [take_glue avt s0 s1 h01, take_glue avt s1 s2 h12, List.take_append_drop]

theorem verbChunksA_textContent (tv : TurkishVerb) (avt : Str)
    (hpa : optStr tv.personal_affix ≠ []) :
    textContent (verbChunksA tv avt) = avt := by
  rw [verbChunksA]
  rw [if_pos hpa]
  obtain ⟨hn1, hn2⟩ :=
    affixSearchStep_spec .purple (optStr tv.negative_affix) avt (rootStepA tv avt).2
  obtain ⟨ht1, ht2⟩ :=
    affixSearchStep_spec .orange tv.tense_affix avt
      (affixSearchStep .purple (optStr tv.negative_affix) avt (rootStepA tv avt).2).2
  rw [textContent_append, textContent_append, textContent_append,
    rootStepA_textContent, hn2, ht2]
  simp only [textContent, List.foldr_cons, List.foldr_nil, List.append_nil]
  exact glue3 avt _ _ _ hn1 ht1

/-- Claim C1 counterexample: for the decomposition of "geldi" (no tense
affix recorded, personal affix null), rendering the input "geldi" drops the
unconsumed tail of the matched span — the plain-text content of the output
is "gel", not the input. -/
theorem contentPreservationCounterexample :
    textContent (renderColoredText .englishToTurkish exGeldi (str "geldi") false 0)
      ≠ str "geldi" := by
  decide

/-- Claim C1 amended: whenever the decomposition's personal affix is present
(non-null and non-empty), the plain-text content of the styled output of
`renderColoredText` equals the input exactly, for every direction, input,
reveal flag and cursor position — including when an affix search inside the
matched span fails.  (When the personal affix is null/empty and the
root/negative/tense consumption does not reach the end of the matched span,
the remainder of the span is dropped, as the counterexample shows.) -/
theorem contentPreservationAmended (d : LearnDirection) (ex : TrainingExample)
    (userInput : Str) (revealFlag : Bool) (cursorPos : Nat)
    (hpa : optStr ex.turkish_verb.personal_affix ≠ []) :
    textContent (renderColoredText d ex userInput revealFlag cursorPos) = userInput := by
  rw [renderColoredText]
  by_cases hd : endsWithTurkish d
  · simp only [hd, Bool.not_true, Bool.false_eq_true, if_false]
    by_cases hu : userInput = []
    · simp [hu, textContent]
    · simp only [hu, if_false]
      rcases hvi : jsIndexOf (lower userInput) (lower ex.turkish_verb.verb_full) with _ | vi
      · rcases hvp :
          (if ex.turkish_verb.root ≠ [] then
            [(⟨ex.turkish_verb.root, .blue, true⟩ : VerbPart)] else [])
          ++ (if optStr ex.turkish_verb.negative_affix ≠ [] then
            [(⟨optStr ex.turkish_verb.negative_affix, .purple, false⟩ : VerbPart)] else [])
          ++ (if ex.turkish_verb.tense_affix ≠ [] then
            [(⟨ex.turkish_verb.tense_affix, .orange, false⟩ : VerbPart)] else [])
          ++ (if optStr ex.turkish_verb.personal_affix ≠ [] then
            [(⟨optStr ex.turkish_verb.personal_affix, .green, false⟩ : VerbPart)] else [])
          with _ | ⟨rootPart, restParts⟩
        · dsimp only
          exact markIncorrectWords_textContent _ _ _ _
        · dsimp only
          rcases hri : jsIndexOf (lower userInput) (lower rootPart.text) with _ | ri
          · dsimp only
            exact markIncorrectWords_textContent _ _ _ _
          · dsimp only
            rw [renderTextWithErrors_textContent]
            obtain ⟨m1, m2⟩ := matchVerbParts_spec userInput (rootPart :: restParts) ri
            rw [m2]
            exact take_seg_drop userInput ri _ m1
      · rw [renderTextWithErrors_textContent,
          verbChunksA_textContent ex.turkish_verb _ hpa, take_chunk_eq]
        have hseg := take_seg_drop userInput vi (vi + ex.turkish_verb.verb_full.length)
          (by omega)
        simp only [Nat.add_sub_cancel_left] at hseg
        exact hseg
  · simp only [hd, Bool.not_false, if_true]
    simp [textContent]

/-- Witness for `contentPreservationAmended` at a concrete input. -/
theorem contentPreservationWitness :
    textContent (renderColoredText .englishToTurkish exGel (str "Ben parka geldim") false 5)
      = str "Ben parka geldim" :=
  contentPreservationAmended .englishToTurkish exGel (str "Ben parka geldim") false 5
    (by decide)

/- ## Claim C6 -/

/-- Claim C6 (confirmed): for any decomposition and direction, clicking every
rendered checkbox once (top to bottom) and then once again returns the card
to its initial state: empty text field and all five progress flags false. -/
theorem checkboxRoundTrip (d : LearnDirection) (ex : TrainingExample) :
    applyClicks d ex (clickList ex ++ clickList ex) initialCardState = initialCardState := by
  by_cases h : negCheckboxRendered ex = true
  · simp only [clickList, h, if_true]
    rfl
  · simp only [clickList, h, Bool.false_eq_true, if_false]
    rfl

/- ## Word Error Classifier lemmas (claim C4) -/

theorem cumLen_zero (ws : List Str) : cumLen ws 0 = 0 := rfl

theorem cumLen_cons (w : Str) (ws : List Str) (i : Nat) :
    cumLen (w :: ws) (i + 1) = w.length + cumLen ws i := by
  simp [cumLen, List.take_succ_cons]

theorem findCursorWord_some_iff : ∀ (words : List Str) (c i : Nat), i < words.length →
    (findCursorWord words c = some i ↔
      (c ≤ cumLen words (i + 1) ∧ (i = 0 ∨ cumLen words i < c))) := by
  intro words
  induction words with
  | nil => intro c i hi; simp at hi
  | cons w ws ih =>
    intro c i hi
    rw [findCursorWord]
    by_cases hc : c ≤ w.length
    · rw [if_pos hc]
      cases i with
      | zero =>
        simp only [cumLen_cons, cumLen_zero]
        constructor
        · intro _; exact ⟨by omega, Or.inl trivial⟩
        · intro _; trivial
      | succ j =>
        simp only [cumLen_cons]
        constructor
        · intro hcontra
          exact absurd (Option.some_inj.mp hcontra) (by omega)
        · rintro ⟨h1, h2⟩
          exfalso
          rcases h2 with h2 | h2
          · omega
          · have hz : cumLen ws j + 0 = cumLen ws j := rfl
            omega
    · rw [if_neg hc]
      push_neg at hc
      cases i with
      | zero =>
        simp only [cumLen_cons, cumLen_zero]
        constructor
        · intro hcontra
          rcases hx : findCursorWord ws (c - w.length) with _ | k
          · rw [hx] at hcontra; simp at hcontra
          · rw [hx] at hcontra
            simp only [Option.map_some'] at hcontra
            exact absurd (Option.some_inj.mp hcontra) (by omega)
        · rintro ⟨h1, _⟩
          exfalso
          omega
      | succ j =>
        have hj : j < ws.length := by
          simp only [List.length_cons] at hi
          omega
        have hih := ih (c - w.length) j hj
        simp only [cumLen_cons]
        constructor
        · intro hmap
          rcases hx : findCursorWord ws (c - w.length) with _ | k
          · rw [hx] at hmap; simp at hmap
          · rw [hx] at hmap
            simp only [Option.map_some'] at hmap
            have hkj : k = j := by
              have := Option.some_inj.mp hmap
              omega
            subst hkj
            have hspec := hih.mp hx
            rcases hspec.2 with h0 | hlt
            · subst h0
              refine ⟨by omega, Or.inr ?_⟩
              simp only [cumLen_zero]
              omega
            · have h1 := hspec.1
              exact ⟨by omega, Or.inr (by omega)⟩
        · rintro ⟨h1, h2⟩
          rcases h2 with h2 | h2
          · exact absurd h2 (by omega)
          · have hx : findCursorWord ws (c - w.length) = some j := by
              apply hih.mpr
              refine ⟨by omega, ?_⟩
              rcases Nat.eq_zero_or_pos j with hj0 | hjpos
              · exact Or.inl hj0
              · right
                have hmono : cumLen ws 0 ≤ cumLen ws j := by
                  simp [cumLen_zero]
                omega
            rw [hx, Option.map_some']

theorem mapIdxFrom_map (g : β → γ) (f : Nat → α → β) : ∀ (n : Nat) (l : List α),
    (mapIdxFrom f n l).map g = mapIdxFrom (fun i a => g (f i a)) n l := by
  intro n l
  induction l generalizing n with
  | nil => rfl
  | cons a as ih => simp [mapIdxFrom, ih]

theorem mapIdxFrom_congr (f g : Nat → α → β) : ∀ (l : List α) (n : Nat),
    (∀ i a, i < l.length → f (n + i) a = g (n + i) a) →
    mapIdxFrom f n l = mapIdxFrom g n l := by
  intro l
  induction l with
  | nil => intro n _; rfl
  | cons a as ih =>
    intro n h
    rw [mapIdxFrom, mapIdxFrom]
    have h0 : f n a = g n a := by
      have := h 0 a (by simp)
      simpa using this
    rw [h0, ih (n + 1) (fun i b hib => by
      have he : n + 1 + i = n + (i + 1) := by omega
      rw [he]
      exact h (i + 1) b (by simp only [List.length_cons]; omega))]

theorem style_flag_decide (w : Str) (b : Bool) :
    decide ((if b then (⟨w, .errU⟩ : Chunk) else ⟨w, .plain⟩).style = Style.errU) = b := by
  cases b <;> simp

theorem codeTokenFlag_eq_amended (tws : List Str) (tol : Bool) (w : Str) :
    codeTokenFlag tws tol w = amendedTokenFlag tws tol w := by
  by_cases h1 : stripTrailingDots w = [] <;> by_cases h2 : isWsRun w <;>
    simp [codeTokenFlag, amendedTokenFlag, claimTokenFlag, h1, h2]

theorem cursorWord_eq_spec (words : List Str) (c : Nat) (i : Nat) (hi : i < words.length) :
    decide (findCursorWord words c = some i) = specContainsCursor words (some c) i := by
  have hiff := findCursorWord_some_iff words c i hi
  rw [specContainsCursor]
  by_cases h : findCursorWord words c = some i
  · obtain ⟨h1, h2⟩ := hiff.mp h
    rcases h2 with h2 | h2
    · subst h2
      simp [h, h1]
    · simp [h, h1, h2]
  · have hn : ¬(c ≤ cumLen words (i + 1) ∧ (i = 0 ∨ cumLen words i < c)) :=
      fun hh => h (hiff.mpr hh)
    by_cases hA : c ≤ cumLen words (i + 1)
    · by_cases hB : i = 0
      · exact absurd ⟨hA, Or.inl hB⟩ hn
      · by_cases hC : cumLen words i < c
        · exact absurd ⟨hA, Or.inr hC⟩ hn
        · simp [h, hA, hB, hC]
    · simp [h, hA]

/- ## Claim C4 -/

/-- Claim C4 counterexample: in "a .. b" against target "x" with the cursor
at position 0, the interior all-period token ".." matches no target word, so
the claim's rule flags it — but the code never flags a token whose
dot-stripped text is empty. -/
theorem wordErrorClassifierCounterexample :
    codeFlags (str "x") (str "a .. b") (some 0)
      ≠ claimFlags (str "x") (str "a .. b") (some 0) := by
  decide

/-- Claim C4 amended: the per-token incorrect flags of `markIncorrectWords`
follow the claim's rule with one exemption the code adds: a token whose text
after stripping trailing periods is empty (an all-period or empty token) is
never flagged.  "Contains the cursor" is the arithmetic range condition of
`specContainsCursor`; the last token and the token holding the cursor are
checked as prefixes, every other non-whitespace token as an exact word. -/
theorem wordErrorClassifierAmended (targetSentence text : Str) (cp : Option Nat) :
    codeFlags targetSentence text cp = amendedFlags targetSentence text cp := by
  rw [codeFlags, amendedFlags, markIncorrectWords, if_neg (by simp)]
  dsimp only
  rw [mapIdxFrom_map]
  apply mapIdxFrom_congr
  intro i w hi
  simp only [Nat.zero_add]
  rw [style_flag_decide, codeTokenFlag_eq_amended]
  congr 1
  rcases cp with _ | c
  · simp [specContainsCursor]
  · dsimp only
    congr 1
    exact cursorWord_eq_spec (splitWs text) c i hi

/- ## HTML escaping safety lemmas (claim C10) -/

theorem replaceChar_not_mem (x c : Char) (rep : Str) (hrep : x ∉ rep) :
    ∀ (s : Str), x ∉ s → x ∉ replaceChar c rep s := by
  intro s hs
  induction s with
  | nil => simp [replaceChar]
  | cons y ys ih =>
    rw [replaceChar]
    have hy : x ≠ y := fun e => hs (e ▸ List.mem_cons_self y ys)
    have hys : x ∉ ys := fun hm => hs (List.mem_cons_of_mem y hm)
    by_cases hyc : y = c
    · rw [if_pos hyc]
      intro hm
      rcases List.mem_append.mp hm with hm | hm
      · exact hrep hm
      · exact ih hys hm
    · rw [if_neg hyc]
      intro hm
      rcases List.mem_cons.mp hm with hm | hm
      · exact hy hm
      · exact ih hys hm

theorem replaceChar_elim (x : Char) (rep : Str) (hrep : x ∉ rep) :
    ∀ (s : Str), x ∉ replaceChar x rep s := by
  intro s
  induction s with
  | nil => simp [replaceChar]
  | cons y ys ih =>
    rw [replaceChar]
    by_cases hyc : y = x
    · rw [if_pos hyc]
      intro hm
      rcases List.mem_append.mp hm with hm | hm
      · exact hrep hm
      · exact ih hm
    · rw [if_neg hyc]
      intro hm
      rcases List.mem_cons.mp hm with hm | hm
      · exact hyc (hm.symm)
      · exact ih hm

theorem escapeHtml_no_danger (s : Str) :
    '<' ∉ escapeHtml s ∧ '>' ∉ escapeHtml s ∧ '"' ∉ escapeHtml s
      ∧ Char.ofNat 39 ∉ escapeHtml s := by
  rw [escapeHtml]
  refine ⟨?_, ?_, ?_, ?_⟩
  · exact replaceChar_not_mem _ _ _ (by decide) _
      (replaceChar_not_mem _ _ _ (by decide) _
        (replaceChar_not_mem _ _ _ (by decide) _
          (replaceChar_elim _ _ (by decide) _)))
  · exact replaceChar_not_mem _ _ _ (by decide) _
      (replaceChar_not_mem _ _ _ (by decide) _
        (replaceChar_elim _ _ (by decide) _))
  · exact replaceChar_not_mem _ _ _ (by decide) _
      (replaceChar_elim _ _ (by decide) _)
  · exact replaceChar_elim _ _ (by decide) _

theorem safeHtmlB_append_of_no_lt (a b : Str) (ha : '<' ∉ a)
    (hb : safeHtmlB b = true) : safeHtmlB (a ++ b) = true := by
  induction a with
  | nil => simpa using hb
  | cons x xs ih =>
    have hx : x ≠ '<' := fun e => ha (e ▸ List.mem_cons_self x xs)
    have hxs : '<' ∉ xs := fun hm => ha (List.mem_cons_of_mem x hm)
    rw [List.cons_append, safeHtmlB, if_neg (fun e => hx e), Bool.true_and]
    exact ih hxs

theorem safeHtmlB_closeTag (r : Str) (hr : safeHtmlB r = true) :
    safeHtmlB (closeTag ++ r) = true := by
  show safeHtmlB r = true
  exact hr

theorem safeHtmlB_openTag (sty : Str) (hsty : '<' ∉ sty) (r : Str)
    (hr : safeHtmlB r = true) : safeHtmlB (openTag sty ++ r) = true := by
  show safeHtmlB ((sty ++ ['"', '>']) ++ r) = true
  rw [List.append_assoc]
  refine safeHtmlB_append_of_no_lt sty _ hsty ?_
  show safeHtmlB r = true
  exact hr

theorem styleAttr_no_lt (sty : Style) : '<' ∉ styleAttr sty := by
  rcases sty with _ | _ | _ | ⟨col, b⟩
  · decide
  · decide
  · decide
  · rcases col <;> rcases b <;> decide

theorem safeHtmlB_chunkHtml (c : Chunk) (hc : c.style ≠ .raw) (r : Str)
    (hr : safeHtmlB r = true) : safeHtmlB (chunkHtml c ++ r) = true := by
  rcases c with ⟨t, sty⟩
  rcases sty with _ | _ | _ | ⟨col, b⟩
  · exact absurd rfl hc
  · exact safeHtmlB_append_of_no_lt _ _ (escapeHtml_no_danger t).1 hr
  · rw [chunkHtml]
    rw [List.append_assoc, List.append_assoc]
    exact safeHtmlB_openTag _ (styleAttr_no_lt _) _
      (safeHtmlB_append_of_no_lt _ _ (escapeHtml_no_danger t).1
        (safeHtmlB_closeTag r hr))
  · rw [chunkHtml]
    rw [List.append_assoc, List.append_assoc]
    exact safeHtmlB_openTag _ (styleAttr_no_lt _) _
      (safeHtmlB_append_of_no_lt _ _ (escapeHtml_no_danger t).1
        (safeHtmlB_closeTag r hr))

theorem safeHtmlB_renderHtml (cs : List Chunk)
    (h : ∀ c ∈ cs, c.style ≠ Style.raw) : safeHtmlB (renderHtml cs) = true := by
  induction cs with
  | nil => rfl
  | cons c cs ih =>
    rw [renderHtml, List.map_cons, List.flatten_cons]
    refine safeHtmlB_chunkHtml c (h c (List.mem_cons_self c cs)) _ ?_
    exact ih (fun x hx => h x (List.mem_cons_of_mem c hx))

theorem mem_mapIdxFrom (f : Nat → α → β) : ∀ (n : Nat) (l : List α) (b : β),
    b ∈ mapIdxFrom f n l → ∃ i a, b = f i a := by
  intro n l
  induction l generalizing n with
  | nil => intro b hb; simp [mapIdxFrom] at hb
  | cons a as ih =>
    intro b hb
    rw [mapIdxFrom] at hb
    rcases List.mem_cons.mp hb with hb | hb
    · exact ⟨n, a, hb⟩
    · exact ih (n + 1) b hb

theorem markIncorrectWords_noRaw (r : Bool) (t text : Str) (cp : Option Nat) :
    ∀ c ∈ markIncorrectWords r t text cp, c.style ≠ Style.raw := by
  intro c hc
  rw [markIncorrectWords] at hc
  by_cases hr : r = true
  · rw [if_pos hr] at hc
    rcases List.mem_singleton.mp hc with rfl
    simp
  · rw [if_neg hr] at hc
    obtain ⟨i, a, rfl⟩ := mem_mapIdxFrom _ _ _ _ hc
    dsimp only
    split <;> simp

theorem rootStepA_noRaw (tv : TurkishVerb) (avt : Str) :
    ∀ c ∈ (rootStepA tv avt).1, c.style ≠ Style.raw := by
  intro c hc
  rw [rootStepA] at hc
  split at hc
  · rcases List.mem_singleton.mp hc with rfl
    simp
  · simp at hc

theorem affixSearchStep_noRaw (col : SegColor) (a avt : Str) (so : Nat) :
    ∀ c ∈ (affixSearchStep col a avt so).1, c.style ≠ Style.raw := by
  intro c hc
  rw [affixSearchStep] at hc
  split at hc
  · simp at hc
  · dsimp only at hc
    rcases hidx : jsIndexOf (lower (avt.drop so)) (lower a) with _ | idx
    · rw [hidx] at hc
      simp at hc
    · rw [hidx] at hc
      dsimp only at hc
      rcases List.mem_append.mp hc with hm | hm
      · split at hm
        · rcases List.mem_singleton.mp hm with rfl
          simp
        · simp at hm
      · rcases List.mem_singleton.mp hm with rfl
        simp

theorem verbChunksA_noRaw (tv : TurkishVerb) (avt : Str) :
    ∀ c ∈ verbChunksA tv avt, c.style ≠ Style.raw := by
  intro c hc
  rw [verbChunksA] at hc
  rcases List.mem_append.mp hc with hm | hm
  · rcases List.mem_append.mp hm with hm2 | hm2
    · rcases List.mem_append.mp hm2 with hm3 | hm3
      · exact rootStepA_noRaw tv avt c hm3
      · exact affixSearchStep_noRaw _ _ _ _ c hm3
    · exact affixSearchStep_noRaw _ _ _ _ c hm2
  · split at hm
    · rcases List.mem_singleton.mp hm with rfl
      simp
    · simp at hm

theorem matchVerbParts_noRaw (input : Str) : ∀ (ps : List VerbPart) (ci : Nat),
    ∀ c ∈ (matchVerbParts input ps ci).1, c.style ≠ Style.raw := by
  intro ps
  induction ps with
  | nil => intro ci c hc; simp [matchVerbParts] at hc
  | cons p ps ih =>
    intro ci c hc
    rw [matchVerbParts] at hc
    split at hc
    · dsimp only at hc
      rcases List.mem_cons.mp hc with rfl | hm
      · simp
      · exact ih (ci + p.text.length) c hm
    · simp at hc

theorem renderTextWithErrors_noRaw (r : Bool) (t ui : Str) (cp : Nat)
    (before : Str) (vcs : List Chunk) (after : Str) (vsp : Nat)
    (hv : ∀ c ∈ vcs, c.style ≠ Style.raw) :
    ∀ c ∈ renderTextWithErrors r t ui cp before vcs after vsp,
      c.style ≠ Style.raw := by
  intro c hc
  rw [renderTextWithErrors] at hc
  rcases List.mem_append.mp hc with hm | hm
  · rcases List.mem_append.mp hm with hm2 | hm2
    · exact markIncorrectWords_noRaw _ _ _ _ c hm2
    · exact hv c hm2
  · exact markIncorrectWords_noRaw _ _ _ _ c hm

theorem renderColoredText_noRaw (d : LearnDirection) (ex : TrainingExample)
    (userInput : Str) (revealFlag : Bool) (cursorPos : Nat)
    (hd : endsWithTurkish d = true) :
    ∀ c ∈ renderColoredText d ex userInput revealFlag cursorPos,
      c.style ≠ Style.raw := by
  intro c hc
  rw [renderColoredText] at hc
  rw [hd] at hc
  simp only [Bool.not_true, Bool.false_eq_true, if_false] at hc
  by_cases hu : userInput = []
  · rw [if_pos hu] at hc
    simp at hc
  · rw [if_neg hu] at hc
    rcases hvi : jsIndexOf (lower userInput) (lower ex.turkish_verb.verb_full)
        with _ | vi <;> rw [hvi] at hc
    · dsimp only at hc
      rcases hvp :
          (if ex.turkish_verb.root ≠ [] then
            [(⟨ex.turkish_verb.root, .blue, true⟩ : VerbPart)] else [])
          ++ (if optStr ex.turkish_verb.negative_affix ≠ [] then
            [(⟨optStr ex.turkish_verb.negative_affix, .purple, false⟩ : VerbPart)] else [])
          ++ (if ex.turkish_verb.tense_affix ≠ [] then
            [(⟨ex.turkish_verb.tense_affix, .orange, false⟩ : VerbPart)] else [])
          ++ (if optStr ex.turkish_verb.personal_affix ≠ [] then
            [(⟨optStr ex.turkish_verb.personal_affix, .green, false⟩ : VerbPart)] else [])
          with _ | ⟨rootPart, restParts⟩ <;> rw [hvp] at hc
      · exact markIncorrectWords_noRaw _ _ _ _ c hc
      · dsimp only at hc
        rcases hri : jsIndexOf (lower userInput) (lower rootPart.text) with _ | ri <;>
          rw [hri] at hc
        · exact markIncorrectWords_noRaw _ _ _ _ c hc
        · exact renderTextWithErrors_noRaw _ _ _ _ _ _ _ _
            (matchVerbParts_noRaw userInput (rootPart :: restParts) ri) c hc
    · exact renderTextWithErrors_noRaw _ _ _ _ _ _ _ _
        (verbChunksA_noRaw ex.turkish_verb _) c hc

/- ## Claim C10 -/

/-- Claim C10 (confirmed): user-typed text is always escaped in the markup.
Part 1: `escapeHtml` output never contains a raw `<`, `>`, `"` or `'` (all
such input characters become entities).  Part 2: in Turkish-target
directions, every `<` in the HTML produced by `renderColoredText` begins one
of the renderer's own literal `<span ...>`/`</span>` tags (`safeHtmlB`), so
user input cannot inject element tags into the rendered field. -/
theorem htmlEscapingSafety :
    (∀ s : Str, ((escapeHtml s).all
      (fun ch => !(ch = '<' || ch = '>' || ch = '"' || ch = Char.ofNat 39))) = true) ∧
    ∀ (d : LearnDirection) (ex : TrainingExample) (userInput : Str)
      (revealFlag : Bool) (cursorPos : Nat),
      endsWithTurkish d = true →
      safeHtmlB (renderHtml (renderColoredText d ex userInput revealFlag cursorPos)) = true := by
  constructor
  · intro s
    rw [List.all_eq_true]
    intro ch hch
    obtain ⟨h1, h2, h3, h4⟩ := escapeHtml_no_danger s
    have e1 : ch ≠ '<' := fun e => h1 (e ▸ hch)
    have e2 : ch ≠ '>' := fun e => h2 (e ▸ hch)
    have e3 : ch ≠ '"' := fun e => h3 (e ▸ hch)
    have e4 : ch ≠ Char.ofNat 39 := fun e => h4 (e ▸ hch)
    simp [e1, e2, e3, e4]
  · intro d ex userInput revealFlag cursorPos hd
    exact safeHtmlB_renderHtml _
      (renderColoredText_noRaw d ex userInput revealFlag cursorPos hd)

/-- Witness for `htmlEscapingSafety` at concrete inputs, including an
attempted `<b>` tag injection. -/
theorem htmlEscapingSafetyWitness :
    ((escapeHtml (str "<b>&'x")).all
      (fun ch => !(ch = '<' || ch = '>' || ch = '"' || ch = Char.ofNat 39))) = true ∧
    safeHtmlB (renderHtml
      (renderColoredText .englishToTurkish exGel (str "<b>gel&x") false 0)) = true :=
  ⟨htmlEscapingSafety.1 (str "<b>&'x"),
   htmlEscapingSafety.2 .englishToTurkish exGel (str "<b>gel&x") false 0 rfl⟩
